import Mathlib

/-!
Shallow embedding of the `block-patterns` repository
(`src/data/scripts/utils.ts`): the `Vector3` value class and the
`BlockMatcher.matchBlocks` pattern-matching engine, together with proofs of
the specification claims.

Numbers are modelled as exact rationals (`ℚ`); `Math.sqrt` is modelled as
`Real.sqrt` on the cast.  The external world collaborator
(`dimension.getBlock`, `dimension.runCommand "setblock ... air destroy"`,
`world.gameRules.doTileDrops`) is modelled as an explicit `World` state
threaded through the matcher, and every collaborator interaction is recorded
in an event trace so that call-order / call-count claims are statable.
-/

namespace BlockPatterns

/-- The `Vector3` class: three numeric components. -/
structure Vector3 where
  x : ℚ
  y : ℚ
  z : ℚ
deriving DecidableEq, Repr

/-- `Vector3.equals`: exact component-wise comparison. -/
def Vector3.equals (v other : Vector3) : Bool :=
  decide (v.x = other.x) && decide (v.y = other.y) && decide (v.z = other.z)

/-- `Vector3.add`. -/
def Vector3.add (v other : Vector3) : Vector3 :=
  ⟨v.x + other.x, v.y + other.y, v.z + other.z⟩

/-- `Vector3.subtract`. -/
def Vector3.subtract (v other : Vector3) : Vector3 :=
  ⟨v.x - other.x, v.y - other.y, v.z - other.z⟩

/-- `Vector3.multiply` by a scalar. -/
def Vector3.multiply (v : Vector3) (scalar : ℚ) : Vector3 :=
  ⟨v.x * scalar, v.y * scalar, v.z * scalar⟩

/-- `Vector3.divide` by a scalar: `if (scalar !== 0) { ... } else { throw }`. -/
def Vector3.divide (v : Vector3) (scalar : ℚ) : Except String Vector3 :=
  if scalar ≠ 0 then
    Except.ok ⟨v.x / scalar, v.y / scalar, v.z / scalar⟩
  else
    Except.error "Cannot divide by zero"

/-- `Vector3.magnitude`: `Math.sqrt(x ** 2 + y ** 2 + z ** 2)`. -/
noncomputable def Vector3.magnitude (v : Vector3) : ℝ :=
  Real.sqrt ((v.x : ℝ) ^ 2 + (v.y : ℝ) ^ 2 + (v.z : ℝ) ^ 2)

/-- `Vector3.normalize`: `if (mag !== 0) { return this.divide(mag) } else { throw }`.
The division by the (generally irrational) magnitude is carried out on the
real casts of the components. -/
noncomputable def Vector3.normalize (v : Vector3) : Except String (ℝ × ℝ × ℝ) :=
  if v.magnitude ≠ 0 then
    Except.ok ((v.x : ℝ) / v.magnitude, (v.y : ℝ) / v.magnitude, (v.z : ℝ) / v.magnitude)
  else
    Except.error "Cannot normalize a zero vector"

/-- `Vector3.dot`. -/
def Vector3.dot (v other : Vector3) : ℚ :=
  v.x * other.x + v.y * other.y + v.z * other.z

/-- `Vector3.cross`. -/
def Vector3.cross (v other : Vector3) : Vector3 :=
  ⟨v.y * other.z - v.z * other.y,
   v.z * other.x - v.x * other.z,
   v.x * other.y - v.y * other.x⟩

/-- `Vector3.distance`. -/
noncomputable def Vector3.distance (v other : Vector3) : ℝ :=
  Real.sqrt (((v.x : ℝ) - other.x) ^ 2 + ((v.y : ℝ) - other.y) ^ 2 +
    ((v.z : ℝ) - other.z) ^ 2)

/-- `Vector3.toString`. -/
def Vector3.asString (v : Vector3) : String :=
  "Vector3(" ++ toString v.x ++ ", " ++ toString v.y ++ ", " ++ toString v.z ++ ")"

/-- C8: `divide(v, s)` fails with the division-by-zero error exactly when the
scalar `s` is zero, and `normalize(v)` fails with its arithmetic error exactly
when `v`'s magnitude is exactly zero (no tolerance band). -/
theorem divide_normalize_error_iff (v : Vector3) (s : ℚ) :
    (v.divide s = Except.error "Cannot divide by zero" ↔ s = 0) ∧
    (v.normalize = Except.error "Cannot normalize a zero vector" ↔ v.magnitude = 0) := by
  constructor
  · by_cases h : s = 0 <;> simp [Vector3.divide, h]
  · by_cases h : v.magnitude = 0 <;> simp [Vector3.normalize, h]

/-- C9: the magnitude of a vector is zero exactly when all three components
are zero. -/
theorem magnitude_eq_zero_iff (v : Vector3) :
    v.magnitude = 0 ↔ v.x = 0 ∧ v.y = 0 ∧ v.z = 0 := by
  unfold Vector3.magnitude
  rw [Real.sqrt_eq_zero']
  constructor
  · intro h
    have hx : (v.x : ℝ) = 0 := by nlinarith [sq_nonneg (v.x : ℝ), sq_nonneg (v.y : ℝ), sq_nonneg (v.z : ℝ)]
    have hy : (v.y : ℝ) = 0 := by nlinarith [sq_nonneg (v.x : ℝ), sq_nonneg (v.y : ℝ), sq_nonneg (v.z : ℝ)]
    have hz : (v.z : ℝ) = 0 := by nlinarith [sq_nonneg (v.x : ℝ), sq_nonneg (v.y : ℝ), sq_nonneg (v.z : ℝ)]
    exact ⟨by exact_mod_cast hx, by exact_mod_cast hy, by exact_mod_cast hz⟩
  · rintro ⟨hx, hy, hz⟩
    simp [hx, hy, hz]

/-- One pattern entry: an offset triple plus the required block type, as in
`{ offset: [number, number, number], blockType: string }`. -/
structure OffsetBlock where
  offset : ℚ × ℚ × ℚ
  blockType : String
deriving DecidableEq, Repr

/-- The trigger block of a pattern: its type and its (anchor) location. -/
structure TriggerBlock where
  blockType : String
  location : Vector3
deriving DecidableEq, Repr

/-- A full pattern: the trigger block plus the ordered offset list. -/
structure BlockPattern where
  triggerBlock : TriggerBlock
  pattern : List OffsetBlock
deriving DecidableEq, Repr

/-- The external world collaborator: the block grid (`dimension.getBlock`
returning the `typeId`, or `none` when no block is there) and the global
`world.gameRules.doTileDrops` flag. -/
structure World where
  blocks : Vector3 → Option String
  doTileDrops : Bool

/-- One observable interaction with the external collaborator. -/
inductive Event where
  | lookup (loc : Vector3)
  | setDrops (value : Bool)
  | destroy (loc : Vector3)
deriving DecidableEq, Repr

/-- `new Vector3(base.x + offsetX, base.y + offsetY, base.z + offsetZ)`. -/
def offsetLocation (base : Vector3) (off : ℚ × ℚ × ℚ) : Vector3 :=
  ⟨base.x + off.1, base.y + off.2.1, base.z + off.2.2⟩

/-- The result object of `matchBlocks`: `{ matched: false }` or
`{ matched: true, combination, center }`. -/
inductive MatchResult where
  | noMatch
  | matched (combination : List OffsetBlock) (center : Vector3)
deriving DecidableEq, Repr

/-- `checkCombination`: walk the offsets in order, look the block up at
`base + offset`, and fail at the first offset whose observed type is absent
or differs from the expected type.  Returns the boolean outcome together
with the trace of lookups actually performed. -/
def checkCombination (w : World) (base : Vector3) :
    List OffsetBlock → Bool × List Event
  | [] => (true, [])
  | b :: rest =>
    let loc := offsetLocation base b.offset
    if w.blocks loc = some b.blockType then
      let r := checkCombination w base rest
      (r.1, Event.lookup loc :: r.2)
    else
      (false, [Event.lookup loc])

/-- The inner `destroyBlock` helper: disable `doTileDrops`, run
`setblock <loc> air destroy`, re-enable `doTileDrops`. -/
def destroyBlock (w : World) (loc : Vector3) : World × List Event :=
  let w1 : World := { w with doTileDrops := false }
  let w2 : World := { w1 with blocks := Function.update w1.blocks loc (some "minecraft:air") }
  let w3 : World := { w2 with doTileDrops := true }
  (w3, [Event.setDrops false, Event.destroy loc, Event.setDrops true])

/-- Destroy each location of a list in order, threading the world state. -/
def destroyLocations (w : World) : List Vector3 → World × List Event
  | [] => (w, [])
  | loc :: rest =>
    let s := destroyBlock w loc
    let t := destroyLocations s.1 rest
    (t.1, s.2 ++ t.2)

/-- `destroyBlocks`: destroy the base (anchor) location, then each offset
location of the combination in order. -/
def destroyBlocks (w : World) (base : Vector3) (combination : List OffsetBlock) :
    World × List Event :=
  destroyLocations w (base :: combination.map (fun b => offsetLocation base b.offset))

/-- The fixed list of 10 rotation transforms applied to the pattern: the
original, then three rotations about each of the Y, X and Z axes. -/
def rotations (pattern : List OffsetBlock) : List (List OffsetBlock) :=
  [pattern,
   pattern.map (fun b => ⟨(b.offset.2.2, b.offset.2.1, -b.offset.1), b.blockType⟩),
   pattern.map (fun b => ⟨(-b.offset.1, b.offset.2.1, -b.offset.2.2), b.blockType⟩),
   pattern.map (fun b => ⟨(-b.offset.2.2, b.offset.2.1, b.offset.1), b.blockType⟩),
   pattern.map (fun b => ⟨(b.offset.1, -b.offset.2.2, b.offset.2.1), b.blockType⟩),
   pattern.map (fun b => ⟨(b.offset.1, -b.offset.2.1, -b.offset.2.2), b.blockType⟩),
   pattern.map (fun b => ⟨(b.offset.1, b.offset.2.2, -b.offset.2.1), b.blockType⟩),
   pattern.map (fun b => ⟨(-b.offset.2.1, b.offset.1, b.offset.2.2), b.blockType⟩),
   pattern.map (fun b => ⟨(-b.offset.1, -b.offset.2.1, b.offset.2.2), b.blockType⟩),
   pattern.map (fun b => ⟨(b.offset.2.1, -b.offset.1, b.offset.2.2), b.blockType⟩)]

/-- The four reflections applied to one rotated pattern: the identity, then
the mirror labelled "across the X-axis" (negate x), "across the Y-axis"
(negate y and z) and "across the Z-axis" (negate z). -/
def reflectionsOf (rotation : List OffsetBlock) : List (List OffsetBlock) :=
  [rotation,
   rotation.map (fun b => ⟨(-b.offset.1, b.offset.2.1, b.offset.2.2), b.blockType⟩),
   rotation.map (fun b => ⟨(b.offset.1, -b.offset.2.1, -b.offset.2.2), b.blockType⟩),
   rotation.map (fun b => ⟨(b.offset.1, b.offset.2.1, -b.offset.2.2), b.blockType⟩)]

/-- The 40-entry candidate list before deduplication: every rotation
combined with every reflection, in generation order. -/
def rawVariants (pattern : List OffsetBlock) : List (List OffsetBlock) :=
  (rotations pattern).flatMap reflectionsOf

/-- Order-stable first-occurrence deduplication, the pure rendering of
`Array.from(new Set(list.map(JSON.stringify))).map(JSON.parse)`: iterate in
order and keep an element only if it has not been seen before. -/
def dedupFirst {α : Type _} [DecidableEq α] (l : List α) : List α :=
  l.foldl (fun acc x => if x ∈ acc then acc else acc ++ [x]) []

/-- `generateCombinations`: the deduplicated candidate-variant list. -/
def generateCombinations (pattern : List OffsetBlock) : List (List OffsetBlock) :=
  dedupFirst (rawVariants pattern)

/-- The `for (const combination of possibleCombinations)` loop of
`matchBlocks`: test each candidate in order, return at the first success
(destroying the matched blocks first when requested). -/
def matchLoop (w : World) (base : Vector3) (destroy : Bool) :
    List (List OffsetBlock) → MatchResult × World × List Event
  | [] => (MatchResult.noMatch, w, [])
  | c :: rest =>
    let chk := checkCombination w base c
    if chk.1 then
      if destroy then
        let d := destroyBlocks w base c
        (MatchResult.matched c base, d.1, chk.2 ++ d.2)
      else
        (MatchResult.matched c base, w, chk.2)
    else
      let r := matchLoop w base destroy rest
      (r.1, r.2.1, chk.2 ++ r.2.2)

/-- `BlockMatcher.matchBlocks`: generate the candidate variants and scan
them at the trigger location.  Returns the result together with the final
world state and the full event trace. -/
def matchBlocks (w : World) (pat : BlockPattern) (destroy : Bool) :
    MatchResult × World × List Event :=
  matchLoop w pat.triggerBlock.location destroy (generateCombinations pat.pattern)

/-- Recursive rendering of first-occurrence deduplication: keep the head,
drop all later structurally-equal copies, recurse. -/
def dedupRec {α : Type _} [DecidableEq α] : List α → List α
  | [] => []
  | x :: xs => x :: dedupRec (xs.filter (fun y => decide (y ≠ x)))
termination_by l => l.length
decreasing_by
  simp only [List.length_cons]
  exact Nat.lt_succ_of_le (List.length_filter_le _ _)

/-- Index of the first occurrence of a value in a list. -/
def firstIdx {α : Type _} [DecidableEq α] (l : List α) (v : α) : ℕ :=
  l.findIdx (fun x => decide (x = v))

theorem firstIdx_cons {α : Type _} [DecidableEq α] (y : α) (l : List α) (v : α) :
    firstIdx (y :: l) v = if y = v then 0 else firstIdx l v + 1 := by
  by_cases h : y = v <;> simp [firstIdx, List.findIdx_cons, h]

theorem dedupRec_sublist {α : Type _} [DecidableEq α] : ∀ l : List α, List.Sublist (dedupRec l) l
  | [] => by simp [dedupRec]
  | x :: xs => by
    rw [dedupRec]
    exact List.Sublist.cons₂ x
      ((dedupRec_sublist _).trans (List.filter_sublist _))
termination_by l => l.length
decreasing_by
  simp only [List.length_cons]
  exact Nat.lt_succ_of_le (List.length_filter_le _ _)

theorem mem_dedupRec {α : Type _} [DecidableEq α] : ∀ {l : List α} {a : α}, a ∈ dedupRec l ↔ a ∈ l := by
  intro l
  induction l using dedupRec.induct with
  | case1 => simp [dedupRec]
  | case2 x xs ih =>
    intro a
    rw [dedupRec]
    constructor
    · intro h
      rcases List.mem_cons.mp h with h | h
      · simp [h]
      · exact List.mem_cons_of_mem x (List.mem_of_mem_filter ((ih).mp h))
    · intro h
      rcases List.mem_cons.mp h with h | h
      · simp [h]
      · by_cases hax : a = x
        · simp [hax]
        · exact List.mem_cons_of_mem x ((ih).mpr (List.mem_filter.mpr ⟨h, by simp [hax]⟩))

theorem dedupRec_nodup {α : Type _} [DecidableEq α] : ∀ l : List α, (dedupRec l).Nodup := by
  intro l
  induction l using dedupRec.induct with
  | case1 => simp [dedupRec]
  | case2 x xs ih =>
    rw [dedupRec]
    refine List.nodup_cons.mpr ⟨fun hx => ?_, ih⟩
    have := List.mem_filter.mp (mem_dedupRec.mp hx)
    simp at this

theorem firstIdx_filter_lt {α : Type _} [DecidableEq α] (p : α → Bool) :
    ∀ (l : List α) {a b : α}, a ∈ l.filter p → b ∈ l.filter p →
      firstIdx (l.filter p) a < firstIdx (l.filter p) b →
      firstIdx l a < firstIdx l b := by
  intro l
  induction l with
  | nil => intro a b ha; simp at ha
  | cons x xs ih =>
    intro a b ha hb hlt
    by_cases hx : p x
    · rw [List.filter_cons_of_pos hx] at ha hb hlt
      by_cases hxa : x = a
      · subst hxa
        by_cases hxb : x = b
        · subst hxb; simp [firstIdx_cons] at hlt
        · simp [firstIdx_cons, hxb]
      · by_cases hxb : x = b
        · subst hxb
          rw [firstIdx_cons, firstIdx_cons, if_neg hxa, if_pos rfl] at hlt
          omega
        · have ha' : a ∈ xs.filter p := List.mem_of_ne_of_mem (fun h => hxa h.symm) ha
          have hb' : b ∈ xs.filter p := List.mem_of_ne_of_mem (fun h => hxb h.symm) hb
          rw [firstIdx_cons, firstIdx_cons, if_neg hxa, if_neg hxb] at hlt
          rw [firstIdx_cons, firstIdx_cons, if_neg hxa, if_neg hxb]
          have := ih ha' hb' (by omega)
          omega
    · rw [List.filter_cons_of_neg hx] at ha hb hlt
      have hxa : x ≠ a := fun h => hx (by rw [h]; exact (List.mem_filter.mp ha).2)
      have hxb : x ≠ b := fun h => hx (by rw [h]; exact (List.mem_filter.mp hb).2)
      rw [firstIdx_cons, firstIdx_cons, if_neg hxa, if_neg hxb]
      have := ih ha hb hlt
      omega

theorem pairwise_imp_mem {α : Type _} {R S : α → α → Prop} :
    ∀ {l : List α}, (∀ a ∈ l, ∀ b ∈ l, R a b → S a b) → l.Pairwise R → l.Pairwise S := by
  intro l
  induction l with
  | nil => intro _ _; exact List.Pairwise.nil
  | cons x xs ih =>
    intro h hp
    rw [List.pairwise_cons] at hp ⊢
    exact ⟨fun b hb => h x (by simp) b (by simp [hb]) (hp.1 b hb),
      ih (fun a ha b hb hr => h a (by simp [ha]) b (by simp [hb]) hr) hp.2⟩

theorem dedupRec_pairwise_firstIdx {α : Type _} [DecidableEq α] :
    ∀ l : List α, (dedupRec l).Pairwise (fun a b => firstIdx l a < firstIdx l b) := by
  intro l
  induction l using dedupRec.induct with
  | case1 => simp [dedupRec]
  | case2 x xs ih =>
    rw [dedupRec]
    refine List.pairwise_cons.mpr ⟨?_, ?_⟩
    · intro b hb
      have hbf : b ∈ xs.filter (fun y => decide (y ≠ x)) := mem_dedupRec.mp hb
      have hbx : b ≠ x := by simpa using (List.mem_filter.mp hbf).2
      rw [firstIdx_cons, firstIdx_cons, if_pos rfl, if_neg (fun h => hbx h.symm)]
      omega
    · refine pairwise_imp_mem (fun a ha b hb hab => ?_) ih
      have haf : a ∈ xs.filter (fun y => decide (y ≠ x)) := mem_dedupRec.mp ha
      have hbf : b ∈ xs.filter (fun y => decide (y ≠ x)) := mem_dedupRec.mp hb
      have hax : a ≠ x := by simpa using (List.mem_filter.mp haf).2
      have hbx : b ≠ x := by simpa using (List.mem_filter.mp hbf).2
      have := firstIdx_filter_lt _ xs haf hbf hab
      rw [firstIdx_cons, firstIdx_cons, if_neg (fun h => hax h.symm),
        if_neg (fun h => hbx h.symm)]
      omega

theorem dedupFirst_go {α : Type _} [DecidableEq α] :
    ∀ (xs acc : List α),
      xs.foldl (fun acc x => if x ∈ acc then acc else acc ++ [x]) acc =
        acc ++ dedupRec (xs.filter (fun y => decide (y ∉ acc))) := by
  intro xs
  induction xs with
  | nil => intro acc; simp [dedupRec]
  | cons x xs ih =>
    intro acc
    by_cases hx : x ∈ acc
    · rw [List.foldl_cons, if_pos hx, ih acc, List.filter_cons_of_neg (by simp [hx])]
    · rw [List.foldl_cons, if_neg hx, ih (acc ++ [x]),
        List.filter_cons_of_pos (by simp [hx]), dedupRec]
      have hfil : xs.filter (fun y => decide (y ∉ acc ++ [x])) =
          (xs.filter (fun y => decide (y ∉ acc))).filter (fun y => decide (y ≠ x)) := by
        rw [List.filter_filter]
        apply List.filter_congr
        intro y _
        by_cases h1 : y = x <;> by_cases h2 : y ∈ acc <;> simp [h1, h2]
      rw [hfil, List.append_assoc, List.singleton_append]

theorem dedupFirst_eq_dedupRec {α : Type _} [DecidableEq α] (l : List α) :
    dedupFirst l = dedupRec l := by
  rw [dedupFirst, dedupFirst_go l [], List.nil_append]
  congr 1
  apply List.filter_eq_self.mpr
  intro a _
  simp

theorem rawVariants_cons (p : List OffsetBlock) :
    ∃ t, rawVariants p = p :: t :=
  ⟨_, rfl⟩

theorem rawVariants_length (p : List OffsetBlock) :
    (rawVariants p).length = 40 := by
  simp [rawVariants, rotations, reflectionsOf]

/-- C2: for every offset list, variant generation builds the 10 fixed
rotations each combined with the 4 reflections (a raw list of length 40),
deduplicates by exact structural equality keeping order-stable
first-occurrence survivors (the result is a duplicate-free sublist of the
raw list containing every raw variant, ordered by first occurrence), and
the first variant of the result is the original untransformed pattern. -/
theorem generateCombinations_spec (p : List OffsetBlock) :
    (rawVariants p).length = 40 ∧
    (generateCombinations p).head? = some p ∧
    (generateCombinations p).Nodup ∧
    List.Sublist (generateCombinations p) (rawVariants p) ∧
    (∀ v, v ∈ generateCombinations p ↔ v ∈ rawVariants p) ∧
    (generateCombinations p).Pairwise
      (fun a b => firstIdx (rawVariants p) a < firstIdx (rawVariants p) b) := by
  obtain ⟨t, ht⟩ := rawVariants_cons p
  refine ⟨rawVariants_length p, ?_, ?_, ?_, ?_, ?_⟩
  · rw [generateCombinations, dedupFirst_eq_dedupRec, ht, dedupRec]
    rfl
  · rw [generateCombinations, dedupFirst_eq_dedupRec]
    exact dedupRec_nodup _
  · rw [generateCombinations, dedupFirst_eq_dedupRec]
    exact dedupRec_sublist _
  · intro v
    rw [generateCombinations, dedupFirst_eq_dedupRec]
    exact mem_dedupRec
  · rw [generateCombinations, dedupFirst_eq_dedupRec]
    exact dedupRec_pairwise_firstIdx _

theorem checkCombination_cons (w : World) (base : Vector3) (b : OffsetBlock)
    (rest : List OffsetBlock) :
    checkCombination w base (b :: rest) =
      if w.blocks (offsetLocation base b.offset) = some b.blockType then
        ((checkCombination w base rest).1,
          Event.lookup (offsetLocation base b.offset) :: (checkCombination w base rest).2)
      else
        (false, [Event.lookup (offsetLocation base b.offset)]) := rfl

theorem checkCombination_fst_iff (w : World) (base : Vector3) :
    ∀ c : List OffsetBlock,
      (checkCombination w base c).1 = true ↔
        ∀ b ∈ c, w.blocks (offsetLocation base b.offset) = some b.blockType := by
  intro c
  induction c with
  | nil => simp [checkCombination]
  | cons b rest ih =>
    rw [checkCombination_cons]
    by_cases h : w.blocks (offsetLocation base b.offset) = some b.blockType
    · simp [h, ih]
    · simp [h]

theorem checkCombination_trace_lookups (w : World) (base : Vector3) :
    ∀ (c : List OffsetBlock), ∀ e ∈ (checkCombination w base c).2, ∃ loc, e = Event.lookup loc := by
  intro c
  induction c with
  | nil => simp [checkCombination]
  | cons b rest ih =>
    rw [checkCombination_cons]
    by_cases h : w.blocks (offsetLocation base b.offset) = some b.blockType
    · rw [if_pos h]
      intro e he
      rcases List.mem_cons.mp he with he | he
      · exact ⟨_, he⟩
      · exact ih e he
    · rw [if_neg h]
      intro e he
      rcases List.mem_cons.mp he with he | he
      · exact ⟨_, he⟩
      · simp at he

theorem checkCombination_trace_length (w : World) (base : Vector3) :
    ∀ c : List OffsetBlock, (checkCombination w base c).2.length ≤ c.length := by
  intro c
  induction c with
  | nil => simp [checkCombination]
  | cons b rest ih =>
    rw [checkCombination_cons]
    by_cases h : w.blocks (offsetLocation base b.offset) = some b.blockType
    · rw [if_pos h]
      simpa using ih
    · rw [if_neg h]
      simp

theorem checkCombination_prefix_fail (w : World) (base : Vector3) (b : OffsetBlock)
    (c₂ : List OffsetBlock) (hb : w.blocks (offsetLocation base b.offset) ≠ some b.blockType) :
    ∀ c₁ : List OffsetBlock,
      (∀ x ∈ c₁, w.blocks (offsetLocation base x.offset) = some x.blockType) →
      checkCombination w base (c₁ ++ b :: c₂) =
        (false, (c₁ ++ [b]).map (fun x => Event.lookup (offsetLocation base x.offset))) := by
  intro c₁
  induction c₁ with
  | nil =>
    intro _
    simp only [List.nil_append, List.map_cons, List.map_nil]
    rw [checkCombination_cons, if_neg hb]
  | cons x rest ih =>
    intro hpre
    have hx : w.blocks (offsetLocation base x.offset) = some x.blockType :=
      hpre x (by simp)
    rw [List.cons_append, checkCombination_cons, if_pos hx,
      ih (fun y hy => hpre y (by simp [hy]))]
    simp

theorem destroyBlock_fst (w : World) (loc : Vector3) :
    (destroyBlock w loc).1 =
      { blocks := Function.update w.blocks loc (some "minecraft:air"), doTileDrops := true } := rfl

theorem destroyLocations_trace :
    ∀ (locs : List Vector3) (w : World),
      (destroyLocations w locs).2 =
        locs.flatMap (fun l => [Event.setDrops false, Event.destroy l, Event.setDrops true]) := by
  intro locs
  induction locs with
  | nil => intro w; simp [destroyLocations]
  | cons loc rest ih =>
    intro w
    simp only [destroyLocations, ih, List.flatMap_cons]
    rfl

theorem destroyLocations_blocks :
    ∀ (locs : List Vector3) (w : World) (l : Vector3),
      (destroyLocations w locs).1.blocks l =
        if l ∈ locs then some "minecraft:air" else w.blocks l := by
  intro locs
  induction locs with
  | nil => intro w l; simp [destroyLocations]
  | cons loc rest ih =>
    intro w l
    show (destroyLocations (destroyBlock w loc).1 rest).1.blocks l = _
    rw [ih, destroyBlock_fst]
    by_cases hrest : l ∈ rest
    · simp [hrest]
    · by_cases hloc : l = loc
      · simp [hrest, hloc, Function.update_apply]
      · simp [hrest, hloc, Function.update_apply]

theorem destroyLocations_drops :
    ∀ (locs : List Vector3) (w : World),
      (destroyLocations w locs).1.doTileDrops = if locs = [] then w.doTileDrops else true := by
  intro locs
  induction locs with
  | nil => intro w; simp [destroyLocations]
  | cons loc rest ih =>
    intro w
    show (destroyLocations (destroyBlock w loc).1 rest).1.doTileDrops = _
    rw [ih]
    by_cases h : rest = [] <;> simp [h, destroyBlock_fst]

theorem matchLoop_cons (w : World) (base : Vector3) (d : Bool) (c : List OffsetBlock)
    (rest : List (List OffsetBlock)) :
    matchLoop w base d (c :: rest) =
      if (checkCombination w base c).1 then
        if d then
          (MatchResult.matched c base, (destroyBlocks w base c).1,
            (checkCombination w base c).2 ++ (destroyBlocks w base c).2)
        else
          (MatchResult.matched c base, w, (checkCombination w base c).2)
      else
        ((matchLoop w base d rest).1, (matchLoop w base d rest).2.1,
          (checkCombination w base c).2 ++ (matchLoop w base d rest).2.2) := rfl

theorem matchLoop_fst (w : World) (base : Vector3) (d : Bool) :
    ∀ combos : List (List OffsetBlock),
      (matchLoop w base d combos).1 =
        match combos.find? (fun c => (checkCombination w base c).1) with
          | some c => MatchResult.matched c base
          | none => MatchResult.noMatch := by
  intro combos
  induction combos with
  | nil => rfl
  | cons c rest ih =>
    rw [matchLoop_cons]
    cases hb : (checkCombination w base c).1 with
    | true =>
      have hf : (c :: rest).find? (fun c => (checkCombination w base c).1) = some c :=
        List.find?_cons_of_pos _ hb
      rw [hf]
      cases d <;> simp
    | false =>
      have hf : (c :: rest).find? (fun c => (checkCombination w base c).1) =
          rest.find? (fun c => (checkCombination w base c).1) :=
        List.find?_cons_of_neg _ (by simp [hb])
      rw [hf]
      simp [hb, ih]

theorem matchLoop_found (w : World) (base : Vector3) (d : Bool) (c : List OffsetBlock)
    (cs₂ : List (List OffsetBlock)) (h2 : (checkCombination w base c).1 = true) :
    ∀ cs₁ : List (List OffsetBlock),
      (∀ c' ∈ cs₁, (checkCombination w base c').1 = false) →
      matchLoop w base d (cs₁ ++ c :: cs₂) =
        (MatchResult.matched c base,
          (if d then (destroyBlocks w base c).1 else w),
          cs₁.flatMap (fun c' => (checkCombination w base c').2) ++
            (checkCombination w base c).2 ++
            (if d then (destroyBlocks w base c).2 else [])) := by
  intro cs₁
  induction cs₁ with
  | nil =>
    intro _
    rw [List.nil_append, matchLoop_cons, if_pos (by simp [h2])]
    cases d <;> simp
  | cons c₀ rest ih =>
    intro h1
    have h₀ : (checkCombination w base c₀).1 = false := h1 c₀ (by simp)
    rw [List.cons_append, matchLoop_cons, if_neg (by simp [h₀]),
      ih (fun c' hc' => h1 c' (by simp [hc']))]
    simp [List.flatMap_cons, List.append_assoc]

theorem matchLoop_all_fail (w : World) (base : Vector3) (d : Bool) :
    ∀ combos : List (List OffsetBlock),
      (∀ c ∈ combos, (checkCombination w base c).1 = false) →
      matchLoop w base d combos =
        (MatchResult.noMatch, w, combos.flatMap (fun c => (checkCombination w base c).2)) := by
  intro combos
  induction combos with
  | nil => intro _; rfl
  | cons c rest ih =>
    intro h
    have hc : (checkCombination w base c).1 = false := h c (by simp)
    rw [matchLoop_cons, if_neg (by simp [hc]), ih (fun c' hc' => h c' (by simp [hc']))]
    simp [List.flatMap_cons]

theorem matchLoop_matched_inv (w : World) (base : Vector3) (d : Bool)
    (c : List OffsetBlock) (ctr : Vector3) :
    ∀ combos : List (List OffsetBlock),
      (matchLoop w base d combos).1 = MatchResult.matched c ctr →
      ∃ cs₁ cs₂, combos = cs₁ ++ c :: cs₂ ∧
        (∀ c' ∈ cs₁, (checkCombination w base c').1 = false) ∧
        (checkCombination w base c).1 = true ∧ ctr = base := by
  intro combos
  induction combos with
  | nil => intro h; simp [matchLoop] at h
  | cons c₀ rest ih =>
    intro h
    rw [matchLoop_cons] at h
    cases hb : (checkCombination w base c₀).1 with
    | true =>
      rw [if_pos (by simp [hb])] at h
      have hc : c₀ = c ∧ base = ctr := by
        cases d <;> simpa [MatchResult.matched.injEq] using h
      exact ⟨[], rest, by simp [hc.1], by simp, hc.1 ▸ hb, hc.2.symm⟩
    | false =>
      rw [if_neg (by simp [hb])] at h
      obtain ⟨cs₁, cs₂, hdec, h1, h2, hctr⟩ := ih h
      exact ⟨c₀ :: cs₁, cs₂, by simp [hdec],
        fun c' hc' => by
          rcases List.mem_cons.mp hc' with hc' | hc'
          · rw [hc']; exact hb
          · exact h1 c' hc',
        h2, hctr⟩

theorem matchLoop_noDestroy (w : World) (base : Vector3) :
    ∀ combos : List (List OffsetBlock),
      (matchLoop w base false combos).2.1 = w ∧
      ∀ e ∈ (matchLoop w base false combos).2.2, ∃ loc, e = Event.lookup loc := by
  intro combos
  induction combos with
  | nil => exact ⟨rfl, by simp [matchLoop]⟩
  | cons c rest ih =>
    rw [matchLoop_cons]
    cases hb : (checkCombination w base c).1 with
    | true =>
      rw [if_pos (by simp [hb])]
      refine ⟨by simp, fun e he => ?_⟩
      exact checkCombination_trace_lookups w base c e (by simpa using he)
    | false =>
      rw [if_neg (by simp [hb])]
      refine ⟨ih.1, fun e he => ?_⟩
      rcases List.mem_append.mp (by simpa using he) with he | he
      · exact checkCombination_trace_lookups w base c e he
      · exact ih.2 e he

/-- C1: for every pattern and world state, `matchBlocks` returns `Matched`
for the first variant in generation order all of whose offsets satisfy the
block lookup at the anchor (`find?` over the generated list), carrying that
variant's ordered offsets and the unchanged anchor location, and `NoMatch`
when no variant fully matches; a variant fully matches exactly when every
one of its offsets looks up the expected block type. -/
theorem matchBlocks_first_variant (w : World) (pat : BlockPattern) (d : Bool) :
    ((matchBlocks w pat d).1 =
      match (generateCombinations pat.pattern).find?
          (fun c => (checkCombination w pat.triggerBlock.location c).1) with
        | some c => MatchResult.matched c pat.triggerBlock.location
        | none => MatchResult.noMatch) ∧
    ∀ c : List OffsetBlock,
      (checkCombination w pat.triggerBlock.location c).1 = true ↔
        ∀ b ∈ c, w.blocks (offsetLocation pat.triggerBlock.location b.offset) =
          some b.blockType :=
  ⟨matchLoop_fst w pat.triggerBlock.location d (generateCombinations pat.pattern),
   fun c => checkCombination_fst_iff w pat.triggerBlock.location c⟩

/-- C4: with destruction disabled, `matchBlocks` leaves the world state
unchanged and its event trace consists of block lookups only, whether or
not a variant matches. -/
theorem matchBlocks_noDestroy_frame (w : World) (pat : BlockPattern) :
    (matchBlocks w pat false).2.1 = w ∧
    ∀ e ∈ (matchBlocks w pat false).2.2, ∃ loc, e = Event.lookup loc := by
  rw [matchBlocks]
  exact matchLoop_noDestroy w pat.triggerBlock.location (generateCombinations pat.pattern)

/-- C5: candidate checking performs at most `offsets.length` lookups per
variant; on a failing variant the trace is exactly the lookups of the
offsets up to and including the first failing one (no later offsets are
queried); and once one variant succeeds the full `matchBlocks` trace
contains only the failing variants before it, the successful variant's own
lookups and (when destroying) the destruction events — nothing from any
later variant. -/
theorem matchBlocks_short_circuit :
    (∀ (w : World) (base : Vector3) (c : List OffsetBlock),
      (checkCombination w base c).2.length ≤ c.length) ∧
    (∀ (w : World) (base : Vector3) (c₁ : List OffsetBlock) (b : OffsetBlock)
        (c₂ : List OffsetBlock),
      (∀ x ∈ c₁, w.blocks (offsetLocation base x.offset) = some x.blockType) →
      w.blocks (offsetLocation base b.offset) ≠ some b.blockType →
      (checkCombination w base (c₁ ++ b :: c₂)).2 =
        (c₁ ++ [b]).map (fun x => Event.lookup (offsetLocation base x.offset))) ∧
    (∀ (w : World) (pat : BlockPattern) (d : Bool)
        (cs₁ : List (List OffsetBlock)) (c : List OffsetBlock)
        (cs₂ : List (List OffsetBlock)),
      generateCombinations pat.pattern = cs₁ ++ c :: cs₂ →
      (∀ c' ∈ cs₁, (checkCombination w pat.triggerBlock.location c').1 = false) →
      (checkCombination w pat.triggerBlock.location c).1 = true →
      (matchBlocks w pat d).2.2 =
        cs₁.flatMap (fun c' => (checkCombination w pat.triggerBlock.location c').2) ++
          (checkCombination w pat.triggerBlock.location c).2 ++
          (if d then (destroyBlocks w pat.triggerBlock.location c).2 else [])) :=
  ⟨fun w base c => checkCombination_trace_length w base c,
   fun w base c₁ b c₂ hpre hb => by
     rw [checkCombination_prefix_fail w base b c₂ hb c₁ hpre],
   fun w pat d cs₁ c cs₂ hdec h1 h2 => by
     rw [matchBlocks, hdec, matchLoop_found w pat.triggerBlock.location d c cs₂ h2 cs₁ h1]⟩

set_option maxRecDepth 8000 in
/-- C6: an empty offset list raises no validation error: all 40 generated
variants are the empty variant, they deduplicate to the single empty
variant, and `matchBlocks` returns `Matched` on that first (empty) variant
with the anchor location and the empty combination, for any world state and
either destroy option. -/
theorem matchBlocks_empty_offsets (w : World) (trig : TriggerBlock) (d : Bool) :
    rawVariants ([] : List OffsetBlock) = List.replicate 40 [] ∧
    generateCombinations ([] : List OffsetBlock) = [[]] ∧
    (matchBlocks w ⟨trig, []⟩ d).1 = MatchResult.matched [] trig.location := by
  have hg : generateCombinations ([] : List OffsetBlock) = [[]] := by decide
  refine ⟨by decide, hg, ?_⟩
  show (matchLoop w trig.location d (generateCombinations [])).1 = _
  rw [hg, matchLoop_cons]
  have hchk : (checkCombination w trig.location []).1 = true := rfl
  rw [if_pos (by simp [hchk])]
  cases d <;> simp

/-- C7: a block lookup returning an absent value (`none`) at an offset is
treated as an ordinary non-match for that offset — the variant simply
fails; the checker is a total function, so no error is raised or
propagated. -/
theorem lookup_miss_not_error (w : World) (base : Vector3) (c₁ : List OffsetBlock)
    (b : OffsetBlock) (c₂ : List OffsetBlock)
    (hpre : ∀ x ∈ c₁, w.blocks (offsetLocation base x.offset) = some x.blockType)
    (hnone : w.blocks (offsetLocation base b.offset) = none) :
    (checkCombination w base (c₁ ++ b :: c₂)).1 = false := by
  rw [checkCombination_prefix_fail w base b c₂ (by simp [hnone]) c₁ hpre]

/-- C3: with destroy enabled and a matching variant, exactly the anchor
location and every offset location of the matched variant read as air in
the final world, every other location is untouched, and the destruction
part of the trace is, per removed block, the drop-suppression flag
disabled immediately before and re-enabled immediately after that single
removal (not batched around the whole set). -/
theorem matchBlocks_destroy_per_block (w : World) (pat : BlockPattern)
    (c : List OffsetBlock)
    (h : (matchBlocks w pat true).1 = MatchResult.matched c pat.triggerBlock.location) :
    (∀ l ∈ pat.triggerBlock.location ::
        c.map (fun b => offsetLocation pat.triggerBlock.location b.offset),
      (matchBlocks w pat true).2.1.blocks l = some "minecraft:air") ∧
    (∀ l, l ∉ pat.triggerBlock.location ::
        c.map (fun b => offsetLocation pat.triggerBlock.location b.offset) →
      (matchBlocks w pat true).2.1.blocks l = w.blocks l) ∧
    (∃ lookups : List Event, (∀ e ∈ lookups, ∃ loc, e = Event.lookup loc) ∧
      (matchBlocks w pat true).2.2 = lookups ++
        (pat.triggerBlock.location ::
          c.map (fun b => offsetLocation pat.triggerBlock.location b.offset)).flatMap
          (fun l => [Event.setDrops false, Event.destroy l, Event.setDrops true])) := by
  obtain ⟨cs₁, cs₂, hdec, h1, h2, -⟩ :=
    matchLoop_matched_inv w pat.triggerBlock.location true c pat.triggerBlock.location
      (generateCombinations pat.pattern) (by rw [matchBlocks] at h; exact h)
  have hmb : matchBlocks w pat true =
      (MatchResult.matched c pat.triggerBlock.location,
        (destroyBlocks w pat.triggerBlock.location c).1,
        cs₁.flatMap (fun c' => (checkCombination w pat.triggerBlock.location c').2) ++
          (checkCombination w pat.triggerBlock.location c).2 ++
          (destroyBlocks w pat.triggerBlock.location c).2) := by
    rw [matchBlocks, hdec,
      matchLoop_found w pat.triggerBlock.location true c cs₂ h2 cs₁ h1]
    simp
  refine ⟨?_, ?_, ?_⟩
  · intro l hl
    rw [hmb]
    show (destroyBlocks w pat.triggerBlock.location c).1.blocks l = _
    rw [destroyBlocks, destroyLocations_blocks, if_pos hl]
  · intro l hl
    rw [hmb]
    show (destroyBlocks w pat.triggerBlock.location c).1.blocks l = _
    rw [destroyBlocks, destroyLocations_blocks, if_neg hl]
  · refine ⟨cs₁.flatMap (fun c' => (checkCombination w pat.triggerBlock.location c').2) ++
      (checkCombination w pat.triggerBlock.location c).2, ?_, ?_⟩
    · intro e he
      rcases List.mem_append.mp he with he | he
      · obtain ⟨c', _, he⟩ := List.mem_flatMap.mp he
        exact checkCombination_trace_lookups w pat.triggerBlock.location c' e he
      · exact checkCombination_trace_lookups w pat.triggerBlock.location c e he
    · rw [hmb]
      show _ ++ _ ++ (destroyBlocks w pat.triggerBlock.location c).2 = _
      rw [destroyBlocks, destroyLocations_trace]

/-- C10: every destructive removal ends by setting the drop-suppression
flag to the constant `true` rather than restoring its prior state, so a
destroying `matchBlocks` call that finds a match always returns with
`doTileDrops = true`, whatever the flag's initial value. -/
theorem matchBlocks_drops_left_true (w : World) (pat : BlockPattern)
    (c : List OffsetBlock)
    (h : (matchBlocks w pat true).1 = MatchResult.matched c pat.triggerBlock.location) :
    (matchBlocks w pat true).2.1.doTileDrops = true := by
  obtain ⟨cs₁, cs₂, hdec, h1, h2, -⟩ :=
    matchLoop_matched_inv w pat.triggerBlock.location true c pat.triggerBlock.location
      (generateCombinations pat.pattern) (by rw [matchBlocks] at h; exact h)
  rw [matchBlocks, hdec,
    matchLoop_found w pat.triggerBlock.location true c cs₂ h2 cs₁ h1]
  show (if true then (destroyBlocks w pat.triggerBlock.location c).1 else w).doTileDrops = true
  rw [if_pos rfl, destroyBlocks, destroyLocations_drops]
  simp

/-- Example anchor location. -/
def originVec : Vector3 := ⟨0, 0, 0⟩

/-- Example pattern entry: an iron block one step below the anchor. -/
def ironBelow : OffsetBlock := ⟨(0, -1, 0), "minecraft:iron_block"⟩

/-- Example trigger block at the origin. -/
def diamondTrigger : TriggerBlock := ⟨"minecraft:diamond_block", originVec⟩

/-- Example pattern with an empty offset list. -/
def emptyPattern : BlockPattern := ⟨diamondTrigger, []⟩

/-- Example world that holds no blocks anywhere. -/
def worldNoBlocks : World := { blocks := fun _ => none, doTileDrops := true }

/-- Example world with the drop flag initially disabled. -/
def worldNoDrops : World := { blocks := fun _ => none, doTileDrops := false }

set_option maxRecDepth 8000 in
theorem matchBlocks_destroy_per_block_witness :
    ((matchBlocks worldNoBlocks emptyPattern true).1 =
      MatchResult.matched [] emptyPattern.triggerBlock.location) ∧
    ((∀ l ∈ emptyPattern.triggerBlock.location ::
        ([] : List OffsetBlock).map
          (fun b => offsetLocation emptyPattern.triggerBlock.location b.offset),
      (matchBlocks worldNoBlocks emptyPattern true).2.1.blocks l = some "minecraft:air") ∧
    (∀ l, l ∉ emptyPattern.triggerBlock.location ::
        ([] : List OffsetBlock).map
          (fun b => offsetLocation emptyPattern.triggerBlock.location b.offset) →
      (matchBlocks worldNoBlocks emptyPattern true).2.1.blocks l = worldNoBlocks.blocks l) ∧
    (∃ lookups : List Event, (∀ e ∈ lookups, ∃ loc, e = Event.lookup loc) ∧
      (matchBlocks worldNoBlocks emptyPattern true).2.2 = lookups ++
        (emptyPattern.triggerBlock.location ::
          ([] : List OffsetBlock).map
            (fun b => offsetLocation emptyPattern.triggerBlock.location b.offset)).flatMap
          (fun l => [Event.setDrops false, Event.destroy l, Event.setDrops true]))) := by
  have h : (matchBlocks worldNoBlocks emptyPattern true).1 =
      MatchResult.matched [] emptyPattern.triggerBlock.location := by decide
  exact ⟨h, matchBlocks_destroy_per_block worldNoBlocks emptyPattern [] h⟩

set_option maxRecDepth 8000 in
theorem matchBlocks_short_circuit_witness :
    ((checkCombination worldNoBlocks originVec [ironBelow]).2.length ≤
      [ironBelow].length) ∧
    ((∀ x ∈ ([] : List OffsetBlock),
        worldNoBlocks.blocks (offsetLocation originVec x.offset) = some x.blockType) ∧
      worldNoBlocks.blocks (offsetLocation originVec ironBelow.offset) ≠
        some ironBelow.blockType ∧
      (checkCombination worldNoBlocks originVec ([] ++ ironBelow :: [])).2 =
        (([] : List OffsetBlock) ++ [ironBelow]).map
          (fun x => Event.lookup (offsetLocation originVec x.offset))) ∧
    (generateCombinations emptyPattern.pattern = [] ++ [] :: [] ∧
      (∀ c' ∈ ([] : List (List OffsetBlock)),
        (checkCombination worldNoBlocks emptyPattern.triggerBlock.location c').1 = false) ∧
      (checkCombination worldNoBlocks emptyPattern.triggerBlock.location []).1 = true ∧
      (matchBlocks worldNoBlocks emptyPattern false).2.2 =
        ([] : List (List OffsetBlock)).flatMap
          (fun c' => (checkCombination worldNoBlocks emptyPattern.triggerBlock.location c').2) ++
        (checkCombination worldNoBlocks emptyPattern.triggerBlock.location []).2 ++
        (if false then
          (destroyBlocks worldNoBlocks emptyPattern.triggerBlock.location []).2
        else [])) := by
  have h1 : ∀ x ∈ ([] : List OffsetBlock),
      worldNoBlocks.blocks (offsetLocation originVec x.offset) = some x.blockType := by
    simp
  have h2 : worldNoBlocks.blocks (offsetLocation originVec ironBelow.offset) ≠
      some ironBelow.blockType := by decide
  have hg : generateCombinations emptyPattern.pattern = [] ++ [] :: [] := by decide
  have h3 : ∀ c' ∈ ([] : List (List OffsetBlock)),
      (checkCombination worldNoBlocks emptyPattern.triggerBlock.location c').1 = false := by
    simp
  have h4 : (checkCombination worldNoBlocks emptyPattern.triggerBlock.location []).1 =
      true := rfl
  exact ⟨matchBlocks_short_circuit.1 worldNoBlocks originVec [ironBelow],
    ⟨h1, h2, matchBlocks_short_circuit.2.1 worldNoBlocks originVec [] ironBelow [] h1 h2⟩,
    ⟨hg, h3, h4,
      matchBlocks_short_circuit.2.2 worldNoBlocks emptyPattern false [] [] [] hg h3 h4⟩⟩

theorem lookup_miss_not_error_witness :
    (∀ x ∈ ([] : List OffsetBlock),
      worldNoBlocks.blocks (offsetLocation originVec x.offset) = some x.blockType) ∧
    worldNoBlocks.blocks (offsetLocation originVec ironBelow.offset) = none ∧
    (checkCombination worldNoBlocks originVec ([] ++ ironBelow :: [])).1 = false := by
  have h1 : ∀ x ∈ ([] : List OffsetBlock),
      worldNoBlocks.blocks (offsetLocation originVec x.offset) = some x.blockType := by
    simp
  have h2 : worldNoBlocks.blocks (offsetLocation originVec ironBelow.offset) = none := rfl
  exact ⟨h1, h2, lookup_miss_not_error worldNoBlocks originVec [] ironBelow [] h1 h2⟩

set_option maxRecDepth 8000 in
theorem matchBlocks_drops_left_true_witness :
    worldNoDrops.doTileDrops = false ∧
    ((matchBlocks worldNoDrops emptyPattern true).1 =
      MatchResult.matched [] emptyPattern.triggerBlock.location) ∧
    (matchBlocks worldNoDrops emptyPattern true).2.1.doTileDrops = true := by
  have h : (matchBlocks worldNoDrops emptyPattern true).1 =
      MatchResult.matched [] emptyPattern.triggerBlock.location := by decide
  exact ⟨rfl, h, matchBlocks_drops_left_true worldNoDrops emptyPattern [] h⟩

end BlockPatterns
